import Mathlib

/-!
A verification development for the agentic JSONata synthesis service.

The embedding follows the TypeScript sources:
* `src/app/api/agentic-jsonata/route.ts` — the evaluator (`testJsonata`), the
  documentation selector (`loadRelevantDocumentation`), the candidate
  generator (`generateNextJsonata`), the reasoning generator
  (`generateReasoning`), the pattern extractor
  (`extractPatternFromJsonata`), and the synthesis loop (`POST`).
* the variant of the same route that keeps a `LearningSummary` with
  `workingPatterns`/`failedPatterns` (file `part_000`).
* the example-generation endpoint with `validateTestExample` (file
  `part_002`).

External collaborators (the jsonata parser/evaluator, the LLM, the
filesystem-backed document store, `JSON.parse` of LLM responses) are
modelled as explicit oracle records: the code under verification is the
control logic that consumes their answers, conditional on whatever those
answers are.
-/

/-- JSON documents (the `any` example values): trees of maps, sequences and
scalars. Numbers are modelled as integers, which suffices for every claim. -/
inductive JValue where
  | null
  | bool (b : Bool)
  | num (n : Int)
  | str (s : String)
  | arr (xs : List JValue)
  | obj (fields : List (String × JValue))
deriving Repr

/-- Escape one character as in JSON string serialization (the escapes that
`JSON.stringify` emits for the characters our model contains). -/
def jsEscapeChar (c : Char) : String :=
  if c = '"' then "\\\""
  else if c = '\\' then "\\\\"
  else if c = '\n' then "\\n"
  else if c = '\t' then "\\t"
  else if c = '\r' then "\\r"
  else String.mk [c]

/-- Escape a string body as `JSON.stringify` does. -/
def jsEscape (s : String) : String :=
  String.join (s.toList.map jsEscapeChar)

mutual

/-- `JSON.stringify` (compact form, no indent argument) on our document
model. -/
def jsStringify : JValue → String
  | .null => "null"
  | .bool true => "true"
  | .bool false => "false"
  | .num n => toString n
  | .str s => "\"" ++ jsEscape s ++ "\""
  | .arr xs => "[" ++ jsStringifyArr xs ++ "]"
  | .obj fs => "\x7b" ++ jsStringifyObj fs ++ "\x7d"

/-- Comma-separated serialization of an array's elements. -/
def jsStringifyArr : List JValue → String
  | [] => ""
  | [x] => jsStringify x
  | x :: y :: rest => jsStringify x ++ "," ++ jsStringifyArr (y :: rest)

/-- Comma-separated serialization of an object's fields. -/
def jsStringifyObj : List (String × JValue) → String
  | [] => ""
  | [(k, v)] => "\"" ++ jsEscape k ++ "\":" ++ jsStringify v
  | (k, v) :: y :: rest =>
      "\"" ++ jsEscape k ++ "\":" ++ jsStringify v ++ "," ++ jsStringifyObj (y :: rest)

end

/-- A JavaScript evaluation result: `none` is JavaScript's `undefined`
(which `jsonata`'s `evaluate` returns when a path has no match), `some v`
a proper JSON value. -/
abbrev JSOut := Option JValue

/-- What `JSON.stringify(x)` contributes inside a template literal:
`JSON.stringify(undefined)` is the value `undefined`, which interpolates
as the text "undefined". -/
def jsStringifyTop : JSOut → String
  | none => "undefined"
  | some v => jsStringify v

/-- Black-box model of the `jsonata` library, per the spec's collaborator
contract ("evaluate expression E against input document D, yielding a value
or a failure"):
* `parseError e = some msg` — `jsonata(e)` throws with message `msg`;
  `none` — parsing succeeds.  Parsing depends only on the expression text.
* `evalResult e d` — the result of `expression.evaluate(d)` for the parsed
  expression: `.error msg` if evaluation throws, `.ok out` the evaluated
  value (possibly `undefined`). Only consulted when parsing succeeded. -/
structure JsonataLib where
  parseError : String → Option String
  evalResult : String → JValue → Except String JSOut

/-- The `TestResult` record of the route. `exampleVal` embeds the `example`
field (`example` is a Lean keyword); `error`/`output` are the optional
fields, `none` meaning the field is absent from the pushed object. -/
structure TestResult where
  exampleVal : JValue
  passed : Bool
  error : Option String
  output : Option JValue
deriving Repr

/-- JavaScript strict equality `output === true` / `output === false`
against a boolean literal: true exactly when the evaluation produced that
very boolean. -/
def isBoolOut (output : JSOut) (b : Bool) : Bool :=
  match output with
  | some (.bool x) => x = b
  | _ => false

/-- One round of the `for` loop body of `testJsonata`: parse the expression,
evaluate it against the example, enforce the strict boolean check, and
classify.  Thrown errors are caught per example and recorded on the result
(the `catch` branch pushes `example`, `passed: false` and `error` only). -/
def testExample (lib : JsonataLib) (jsonataStr : String) (ex : JValue)
    (shouldPass : Bool) : TestResult :=
  match lib.parseError jsonataStr with
  | some parseErr =>
      { exampleVal := ex, passed := false
        error := some ("Invalid JSONata syntax: " ++ parseErr), output := none }
  | none =>
    match lib.evalResult jsonataStr ex with
    | .error evalErr =>
        { exampleVal := ex, passed := false
          error := some ("Evaluation failed: " ++ evalErr), output := none }
    | .ok output =>
        let isTrue : Bool := isBoolOut output true
        let isFalse : Bool := isBoolOut output false
        if !isTrue && !isFalse then
          { exampleVal := ex, passed := false
            error := some ("Expression must return exactly true or false, got: "
              ++ jsStringifyTop output)
            output := none }
        else
          { exampleVal := ex
            passed := (shouldPass && isTrue) || (!shouldPass && isFalse)
            error := none, output := output }

/-- `testJsonata`: evaluate one candidate against a batch of examples with a
shared expected polarity, one result pushed per example, in input order. -/
def testJsonata (lib : JsonataLib) (jsonataStr : String) (examples : List JValue)
    (shouldPass : Bool) : List TestResult :=
  examples.map (fun ex => testExample lib jsonataStr ex shouldPass)

/-- `allResults = [...trueResults, ...falseResults]`: the combined outcome
list of one loop iteration, positive-example outcomes first. -/
def allResultsOf (lib : JsonataLib) (expr : String)
    (trueExamples falseExamples : List JValue) : List TestResult :=
  testJsonata lib expr trueExamples true ++ testJsonata lib expr falseExamples false

/-- Does `cs` start with `pat`? -/
def listStartsWith : List Char → List Char → Bool
  | [], _ => true
  | _ :: _, [] => false
  | p :: ps, c :: cs => p = c && listStartsWith ps cs

/-- Does `pat` occur as a contiguous substring of `cs`? -/
def listHasSub (pat : List Char) : List Char → Bool
  | [] => pat.isEmpty
  | c :: cs => listStartsWith pat (c :: cs) || listHasSub pat (cs)

/-- Substring containment on strings: `strHasSub s pat` holds when `pat`
occurs contiguously inside `s`. -/
def strHasSub (s pat : String) : Bool :=
  listHasSub pat.toList s.toList

/-- A concrete jsonata-library oracle, used to instantiate the theorems on
closed inputs: `"("` fails to parse, `"true"`/`"false"` evaluate to the
corresponding boolean, `"one"` evaluates to the number `1`, `"boom"` throws
during evaluation, and anything else evaluates to `undefined`. -/
def demoLib : JsonataLib where
  parseError := fun s =>
    if s = "(" then some "Expected expression after (" else none
  evalResult := fun s _ex =>
    if s = "true" then .ok (some (.bool true))
    else if s = "false" then .ok (some (.bool false))
    else if s = "one" then .ok (some (.num 1))
    else if s = "boom" then .error "oops"
    else .ok none

/-- The character class `[a-zA-Z0-9_]` of the extraction regexes. -/
def isWordChar (c : Char) : Bool :=
  ('a' ≤ c && c ≤ 'z') || ('A' ≤ c && c ≤ 'Z') || ('0' ≤ c && c ≤ '9') || c = '_'

/-- Longest run of word characters at the head of the text. -/
def takeWord : List Char → List Char
  | [] => []
  | c :: cs => if isWordChar c then c :: takeWord cs else []

/-- What remains after the longest head run of word characters. -/
def dropWord : List Char → List Char
  | [] => []
  | c :: cs => if isWordChar c then dropWord cs else c :: cs

theorem dropWord_length_le (cs : List Char) : (dropWord cs).length ≤ cs.length := by
  induction cs with
  | nil => simp [dropWord]
  | cons c cs ih =>
    by_cases h : isWordChar c <;> simp [dropWord, h]
    omega

/-- Greedy matching of `(\.[a-zA-Z0-9_]+)+` at the head of the text: the
consumed characters (empty when not even one group matches) and the rest.
For this regex the greedy longest word runs never need backtracking: a
shorter run would leave a word character where `\.` or `\(` is required.
Structural recursion on a fuel bound (each step consumes a dot and a
nonempty word run, so the input length is always enough fuel). -/
def dottedGroupsF : Nat → List Char → List Char × List Char
  | 0, cs => ([], cs)
  | _ + 1, [] => ([], [])
  | fuel + 1, c :: rest =>
      if c = '.' then
        if takeWord rest = [] then ([], c :: rest)
        else
          let p := dottedGroupsF fuel (dropWord rest)
          (c :: (takeWord rest ++ p.1), p.2)
      else ([], c :: rest)

/-- The `(\.[a-zA-Z0-9_]+)+` matcher, with the fuel instantiated. -/
def dottedGroups (cs : List Char) : List Char × List Char :=
  dottedGroupsF cs.length cs

/-- Match of `[a-zA-Z0-9_]+(\.[a-zA-Z0-9_]+)+` anchored at the head of the
text: the matched characters, or `none`. -/
def matchDottedAt (cs : List Char) : Option (List Char) :=
  let w1 := takeWord cs
  if w1 = [] then none
  else
    let p := dottedGroups (dropWord cs)
    if p.1 = [] then none else some (w1 ++ p.1)

/-- `String.prototype.match` scan for the dotted-path regex: try each start
position left to right and return the first (leftmost) match. -/
def findDotted : List Char → Option (List Char)
  | [] => none
  | c :: cs =>
      match matchDottedAt (c :: cs) with
      | some m => some m
      | none => findDotted cs

/-- Match of `\$[a-zA-Z0-9_]+\(` anchored at the head of the text. -/
def matchFuncAt (cs : List Char) : Option (List Char) :=
  match cs with
  | [] => none
  | c :: rest =>
      if c = '$' then
        let w := takeWord rest
        if w = [] then none
        else
          match dropWord rest with
          | [] => none
          | d :: _ => if d = '(' then some (c :: (w ++ [d])) else none
      else none

/-- Leftmost match scan for the function-invocation regex. -/
def findFunc : List Char → Option (List Char)
  | [] => none
  | c :: cs =>
      match matchFuncAt (c :: cs) with
      | some m => some m
      | none => findFunc cs

/-- `extractPatternFromJsonata`: first the dotted-path regex (first match
returned verbatim), else the function-invocation regex (first match with the
trailing `(` stripped by `slice(0, -1)`), else `null`.  The `example`
argument is received but never consulted; `String.prototype.match` cannot
throw, so the `catch` branch is dead code. -/
def extractPatternFromJsonata (jsonata : String) (_ex : JValue) : Option String :=
  match findDotted jsonata.toList with
  | some m => some (String.mk m)
  | none =>
    match findFunc jsonata.toList with
    | some m => some (String.mk m.dropLast)
    | none => none

/-- The dotted-path shape `[a-zA-Z0-9_]+(\.[a-zA-Z0-9_]+)+`: a nonempty word
run followed by one or more groups, each a dot then a nonempty word run. -/
def DottedShape (s : List Char) : Prop :=
  ∃ w gs, w ≠ [] ∧ (∀ c ∈ w, isWordChar c) ∧ gs ≠ [] ∧
    (∀ g ∈ gs, g ≠ [] ∧ ∀ c ∈ g, isWordChar c) ∧
    s = w ++ (gs.map (fun g => '.' :: g)).join

/-- The function-invocation shape `\$[a-zA-Z0-9_]+\(`. -/
def FuncShape (s : List Char) : Prop :=
  ∃ w, w ≠ [] ∧ (∀ c ∈ w, isWordChar c) ∧ s = '$' :: (w ++ ['('])

/-- Some dotted-path match begins at offset `i` of the text. -/
def DottedAt (cs : List Char) (i : Nat) : Prop :=
  ∃ m t, DottedShape m ∧ cs.drop i = m ++ t

/-- Some function-invocation match begins at offset `i` of the text. -/
def FuncAt (cs : List Char) (i : Nat) : Prop :=
  ∃ m t, FuncShape m ∧ cs.drop i = m ++ t

/-- `s` occurs at offset `i` of `cs` and no dotted-path match begins at any
earlier offset: `s` is the first dotted-path substring. -/
def FirstDottedSub (cs s : List Char) : Prop :=
  ∃ i, DottedShape s ∧ (∃ t, cs.drop i = s ++ t) ∧ ∀ j < i, ¬ DottedAt cs j

/-- A function-invocation match `m` occurs at offset `i` of `cs`, no such
match begins earlier, and `s` is `m` with the trailing `(` stripped. -/
def FirstFuncSubStripped (cs s : List Char) : Prop :=
  ∃ i m, FuncShape m ∧ (∃ t, cs.drop i = m ++ t) ∧ s = m.dropLast
    ∧ ∀ j < i, ¬ FuncAt cs j

/-- The `Progress` record of the route: tracked per run and fed to prompt
construction.  `reasoning` and `documentation` are the optional fields. -/
structure Progress where
  passedExamples : List JValue
  failedExamples : List JValue
  successfulPatterns : List String
  reasoning : Option String
  documentation : Option (List String)
deriving Repr

/-- The `LearningSummary` record of the variant route (file `part_000`):
the learning state with a working/failed pattern partition. -/
structure LearningSummary where
  workingPatterns : List String
  failedPatterns : List String
  lastReasoning : String
  documentation : Option (List String)
deriving Repr

/-- The parsed JSON body of one example-generation LLM response: the
`trueExamples`/`falseExamples` arrays.  A `none` at the oracle models a
response on which `JSON.parse` or the subsequent array accesses throw
(caught by the endpoint's outer `catch`). -/
structure GenResponse where
  trueExamples : List JValue
  falseExamples : List JValue
deriving Repr

/-- The collaborators consumed by the routes, modelled as oracles.  Each
LLM call site builds its prompt deterministically from the listed inputs,
so the `message.content` consumed at that call site is modelled as a
function of those inputs (an `Option String`: `none` is a null content).
* `lib` — the jsonata library.
* `docSelectContent` — the documentation-selection completion, from
  (description, currentJsonata, trueExamples, falseExamples).
* `jsonParseList` — `JSON.parse` of the selection response: `none` when it
  throws or does not yield an array of names.
* `docExists`/`docContent` — the documentation store (`fs.existsSync` and
  the file body; missing/unreadable/empty bodies are the empty string).
* `genContent` — the candidate-generation completion, from (currentJsonata,
  trueExamples, falseExamples, description, previousResults, progress,
  relevantDocs).
* `reasonContent` — the reasoning completion, from (currentJsonata,
  allResults, progress, description, relevantDocs).
* `genContentLS` — the candidate-generation completion of the
  `LearningSummary` variant, from (currentJsonata, trueExamples,
  falseExamples, description, learningSummary, relevantDocs).
* `exampleGen` — the example-generation completion of the endpoint in
  `part_002`, indexed by the attempt number (the prompt grows feedback
  after each failed attempt). -/
structure Env where
  lib : JsonataLib
  docSelectContent : String → String → List JValue → List JValue → Option String
  jsonParseList : String → Option (List String)
  docExists : String → Bool
  docContent : String → String
  genContent : String → List JValue → List JValue → String → List TestResult →
    Option Progress → String → Option String
  reasonContent : String → List TestResult → Progress → String → String →
    Option String
  genContentLS : String → List JValue → List JValue → String → LearningSummary →
    String → Option String
  exampleGen : Nat → Option GenResponse

/-- JavaScript `x || dflt` on a nullable string: `null`, `undefined` and
`""` are falsy. -/
def jsOrElse (content : Option String) (dflt : String) : String :=
  match content with
  | none => dflt
  | some s => if s = "" then dflt else s

/-- The whitespace class stripped by `String.prototype.trim` (restricted to
the ASCII whitespace our model produces). -/
def isJsWhitespace (c : Char) : Bool :=
  c = ' ' || c = '\t' || c = '\n' || c = '\r' || c = '\x0b' || c = '\x0c'

/-- `String.prototype.trim`: strip leading and trailing whitespace. -/
def jsTrim (s : String) : String :=
  String.mk (((s.toList.dropWhile isJsWhitespace).reverse.dropWhile
    isJsWhitespace).reverse)

/-- `completion.choices[0].message.content?.trim() || ""`: a null content
gives `""`; otherwise the trimmed text (`|| ""` changes nothing, an empty
trim is already `""`). -/
def trimOrEmpty (content : Option String) : String :=
  match content with
  | none => ""
  | some s => jsTrim s

/-- `loadJsonataDocumentation`: look the file up, read it, and degrade any
missing/empty/erroring read to the empty string. -/
def loadJsonataDocumentation (env : Env) (docName : String) : String :=
  if env.docExists docName then env.docContent docName else ""

/-- `loadRelevantDocumentation`: when `existingDocs` is absent, ask the LLM
which documents are relevant, parse its response (`|| "[]"` on a falsy
content; a parse failure leaves the selection empty), and filter out names
with no backing file; when `existingDocs` is present, reuse it unchanged.
Then concatenate the bodies of the selected documents under per-document
headers, skipping empty bodies. -/
def loadRelevantDocumentation (env : Env) (description currentJsonata : String)
    (trueExamples falseExamples : List JValue)
    (existingDocs : Option (List String)) : List String × String :=
  let documentation : List String :=
    match existingDocs with
    | some docs => docs
    | none =>
        match env.jsonParseList
          (jsOrElse (env.docSelectContent description currentJsonata
            trueExamples falseExamples) "[]") with
        | none => []
        | some names => names.filter (fun docName => env.docExists docName)
  let relevantDocs : String :=
    documentation.foldl (fun acc docName =>
      let docContent := loadJsonataDocumentation env docName
      if docContent = "" then acc
      else acc ++ "\n\n=== " ++ docName ++ " Documentation ===\n" ++ docContent) ""
  (documentation, relevantDocs)

/-- `generateNextJsonata`: obtain the documentation (reusing
`progress?.documentation` when pinned), invoke the LLM once, and take the
trimmed raw response text as the next candidate verbatim — no parsing or
validation of the candidate occurs here. -/
def generateNextJsonata (env : Env) (currentJsonata : String)
    (trueExamples falseExamples : List JValue) (description : String)
    (previousResults : List TestResult) (progress : Option Progress) :
    String × List String :=
  let docs := loadRelevantDocumentation env description currentJsonata
    trueExamples falseExamples (progress.bind (fun p => p.documentation))
  let newJsonata := trimOrEmpty (env.genContent currentJsonata trueExamples
    falseExamples description previousResults progress docs.2)
  (newJsonata, docs.1)

/-- `generateReasoning`: reuse the pinned documentation (the example lists
passed to the selector are empty here, as in the source) and return the
trimmed LLM analysis. -/
def generateReasoning (env : Env) (currentJsonata : String)
    (allResults : List TestResult) (progress : Progress)
    (description : String) : String :=
  let docs := loadRelevantDocumentation env description currentJsonata [] []
    progress.documentation
  trimOrEmpty (env.reasonContent currentJsonata allResults progress
    description docs.2)

/-- JS `Set.add` as observed through `Array.from`: append if absent,
preserving insertion order. -/
def insertNew (l : List String) (s : String) : List String :=
  if s ∈ l then l else l ++ [s]

/-- The successful-pattern recomputation of the route's loop: one pass over
`allResults`, collecting (via a `Set`) the patterns extracted from the
passed outcomes. -/
def successfulPatternsOf (expr : String) (results : List TestResult) :
    List String :=
  results.foldl (fun acc r =>
    if r.passed then
      match extractPatternFromJsonata expr r.exampleVal with
      | some pattern => insertNew acc pattern
      | none => acc
    else acc) []

/-- One outcome's contribution to the pattern partition of the
`LearningSummary` variant: its extracted pattern goes to `currentPatterns`
when the outcome passed and to `failedPatterns` otherwise. -/
def patternStep (expr : String) (acc : List String × List String)
    (r : TestResult) : List String × List String :=
  match extractPatternFromJsonata expr r.exampleVal with
  | some pattern =>
      if r.passed then (insertNew acc.1 pattern, acc.2)
      else (acc.1, insertNew acc.2 pattern)
  | none => acc

/-- The pattern-partition pass of the `LearningSummary` variant: one pass
over all outcomes (two `Set`s, insertion order). -/
def patternPartition (expr : String) (results : List TestResult) :
    List String × List String :=
  results.foldl (patternStep expr) ([], [])

/-- The `LearningSummary` update at the end of the variant loop's
EVALUATING step: both pattern lists are overwritten with this iteration's
partition. -/
def updateLearningSummary (ls : LearningSummary) (expr : String)
    (results : List TestResult) : LearningSummary :=
  { ls with
    workingPatterns := (patternPartition expr results).1
    failedPatterns := (patternPartition expr results).2 }

/-- One record of the output stream (the serialized `iteration` lines). -/
structure Iteration where
  jsonata : String
  results : List TestResult
  documentation : Option (List String)
  progress : Progress
deriving Repr

/-- The request body of the synthesis route. -/
structure RequestBody where
  jsonata : String
  trueExamples : List JValue
  falseExamples : List JValue
  description : String

/-- The mutable state of the route's `while` loop: the current candidate,
the `progress` object, the records written to the stream so far, and
whether `allTestsPassed` terminated the loop (after which the stream is
closed). -/
structure LoopState where
  currentJsonata : String
  progress : Progress
  emitted : List Iteration
  done : Bool

/-- One pass of the route's `while (!allTestsPassed)` body: evaluate both
batches, update `passedExamples`/`failedExamples`, recompute
`successfulPatterns` (only when something passed), generate reasoning
(only when something failed), emit the iteration record, and either stop
(all passed) or ask the generator for the next candidate. -/
def runIteration (env : Env) (trueExamples falseExamples : List JValue)
    (description : String) (st : LoopState) : LoopState :=
  let allResults := allResultsOf env.lib st.currentJsonata trueExamples falseExamples
  let p1 : Progress := { st.progress with
    passedExamples := ((allResults.filter (fun r => r.passed)).map
      (fun r => r.exampleVal))
    failedExamples := ((allResults.filter (fun r => !r.passed)).map
      (fun r => r.exampleVal)) }
  let p2 : Progress :=
    if p1.passedExamples.length > 0 then
      { p1 with successfulPatterns :=
          successfulPatternsOf st.currentJsonata allResults }
    else p1
  let p3 : Progress :=
    if p1.failedExamples.length > 0 then
      { p2 with reasoning := some (generateReasoning env st.currentJsonata
          allResults p2 description) }
    else p2
  let iter : Iteration :=
    { jsonata := st.currentJsonata, results := allResults
      documentation := p3.documentation, progress := p3 }
  let emitted := st.emitted ++ [iter]
  let allTestsPassed := allResults.all (fun r => r.passed)
  if allTestsPassed then
    { currentJsonata := st.currentJsonata, progress := p3,
      emitted := emitted, done := true }
  else
    let next := generateNextJsonata env st.currentJsonata trueExamples
      falseExamples description allResults (some p3)
    { currentJsonata := next.1, progress := p3, emitted := emitted, done := false }

/-- The route's loop, with an explicit fuel bound (the source imposes no
iteration cap; every claim about the loop is fuel-generic).  A `done` state
is terminal: the stream has been closed and nothing further is emitted. -/
def runLoop (env : Env) (trueExamples falseExamples : List JValue)
    (description : String) : Nat → LoopState → LoopState
  | 0, st => st
  | fuel + 1, st =>
      if st.done then st
      else runLoop env trueExamples falseExamples description fuel
        (runIteration env trueExamples falseExamples description st)

/-- The `progress` object as initialized at the top of `POST` (its
`documentation` starts `undefined`). -/
def initialProgress : Progress :=
  { passedExamples := [], failedExamples := [], successfulPatterns := [],
    reasoning := none, documentation := none }

/-- The route's `POST` body: one generator call before the loop (this is
where the documentation selection is computed, since
`progress.documentation` is still absent), pin `progress.documentation`
to the returned selection, then run the loop. -/
def runPost (env : Env) (body : RequestBody) (fuel : Nat) : LoopState :=
  let first := generateNextJsonata env body.jsonata body.trueExamples
    body.falseExamples body.description [] (some initialProgress)
  runLoop env body.trueExamples body.falseExamples body.description fuel
    { currentJsonata := first.1
      progress := { initialProgress with documentation := some first.2 }
      emitted := [], done := false }

/-- The loop state of the `LearningSummary` variant (file `part_000`). -/
structure P000State where
  currentJsonata : String
  learning : LearningSummary
  emitted : List Iteration
  done : Bool

/-- `generateNextJsonata` of the variant route: documentation reused from
`learningSummary.documentation`, trimmed raw LLM text as the candidate. -/
def p000_generateNextJsonata (env : Env) (currentJsonata : String)
    (trueExamples falseExamples : List JValue) (description : String)
    (ls : LearningSummary) : String × List String :=
  let docs := loadRelevantDocumentation env description currentJsonata
    trueExamples falseExamples ls.documentation
  (trimOrEmpty (env.genContentLS currentJsonata trueExamples falseExamples
    description ls docs.2), docs.1)

/-- One pass of the variant route's loop body: evaluate, partition this
iteration's patterns into working/failed (overwriting the learning
summary), generate reasoning when something failed, emit, and either stop
or generate the next candidate. -/
def p000_runIteration (env : Env) (trueExamples falseExamples : List JValue)
    (description : String) (st : P000State) : P000State :=
  let allResults := allResultsOf env.lib st.currentJsonata trueExamples falseExamples
  let ls1 := updateLearningSummary st.learning st.currentJsonata allResults
  let ls2 :=
    if allResults.any (fun r => !r.passed) then
      { ls1 with lastReasoning := (generateReasoning env st.currentJsonata
          allResults
          { passedExamples := ((allResults.filter (fun r => r.passed)).map
              (fun r => r.exampleVal))
            failedExamples := ((allResults.filter (fun r => !r.passed)).map
              (fun r => r.exampleVal))
            successfulPatterns := ls1.workingPatterns
            reasoning := none
            documentation := ls1.documentation } description) }
    else ls1
  let iter : Iteration :=
    { jsonata := st.currentJsonata, results := allResults
      documentation := ls2.documentation
      progress :=
        { passedExamples := ((allResults.filter (fun r => r.passed)).map
            (fun r => r.exampleVal))
          failedExamples := ((allResults.filter (fun r => !r.passed)).map
            (fun r => r.exampleVal))
          successfulPatterns := ls2.workingPatterns
          reasoning := some ls2.lastReasoning
          documentation := none } }
  let emitted := st.emitted ++ [iter]
  let allTestsPassed := allResults.all (fun r => r.passed)
  if allTestsPassed then
    { currentJsonata := st.currentJsonata, learning := ls2,
      emitted := emitted, done := true }
  else
    let next := p000_generateNextJsonata env st.currentJsonata trueExamples
      falseExamples description ls2
    { currentJsonata := next.1
      learning := { ls2 with documentation := some next.2 }
      emitted := emitted, done := false }

/-- `validateTestExample` of the example-generation endpoint (file
`part_002`): evaluate the expression on the example; `undefined`, `null`,
the empty array and the empty object are rejected; a thrown parse or
evaluation error is caught and rejected with a `null` output.  The
endpoint also passes the expected output, which the function receives but
never consults. -/
def validateTestExample (lib : JsonataLib) (ex : JValue) (jsonataExpr : String)
    (_expectedOutput : JSOut) : Bool × JSOut :=
  match lib.parseError jsonataExpr with
  | some _ => (false, some .null)
  | none =>
    match lib.evalResult jsonataExpr ex with
    | .error _ => (false, some .null)
    | .ok result =>
      match result with
      | none => (false, none)
      | some .null => (false, some .null)
      | some (.arr xs) =>
          if xs.length = 0 then (false, some (.arr xs)) else (true, some (.arr xs))
      | some (.obj fs) =>
          if fs.length = 0 then (false, some (.obj fs)) else (true, some (.obj fs))
      | some v => (true, some v)

/-- Outcome of the example-generation endpoint: the JSON payload
(`trueExamples`, `falseExamples`, and the attached output arrays), or an
HTTP 500 error body. -/
inductive GenPostResult where
  | ok (trueExamples falseExamples : List JValue)
      (trueExampleOutputs falseExampleOutputs : List JSOut)
  | err (msg : String)
deriving Repr

/-- The endpoint's `while (!validResponse && attempts < maxAttempts)` loop,
counting the remaining attempts: each attempt parses the LLM response (a
throw aborts with the catch-all error), validates the `trueExamples`, and
either accepts — attaching the outputs of both example arrays, with the
`falseExamples` validated only to collect their outputs — or retries. -/
def genPostLoop (lib : JsonataLib) (gen : Nat → Option GenResponse)
    (jsonataExpr : String) (output : JSOut) (attempts : Nat) :
    Nat → GenPostResult
  | 0 => .err "Failed to generate valid test examples after multiple attempts"
  | remaining + 1 =>
      match gen attempts with
      | none => .err "Failed to process request"
      | some resp =>
          let validationResults := resp.trueExamples.map
            (fun ex => validateTestExample lib ex jsonataExpr output)
          if validationResults.all (fun v => v.1) then
            let falseValidationResults := resp.falseExamples.map
              (fun ex => validateTestExample lib ex jsonataExpr output)
            .ok resp.trueExamples resp.falseExamples
              (validationResults.map (fun v => v.2))
              (falseValidationResults.map (fun v => v.2))
          else
            genPostLoop lib gen jsonataExpr output (attempts + 1) remaining

/-- The example-generation endpoint's `POST` body: up to `maxAttempts = 3`
attempts. -/
def genPost (lib : JsonataLib) (gen : Nat → Option GenResponse)
    (jsonataExpr : String) (output : JSOut) : GenPostResult :=
  genPostLoop lib gen jsonataExpr output 0 3

/-- A concrete collaborator environment for the closed instantiations. -/
def demoEnv : Env where
  lib := demoLib
  docSelectContent := fun _ _ _ _ => some "[\"overview\"]"
  jsonParseList := fun s =>
    if s = "[\"overview\"]" then some ["overview"] else none
  docExists := fun n => n = "overview"
  docContent := fun n => if n = "overview" then "Overview docs." else ""
  genContent := fun _ _ _ _ _ _ _ => some " true "
  reasonContent := fun _ _ _ _ _ => some "analysis"
  genContentLS := fun _ _ _ _ _ _ => some "true"
  exampleGen := fun _ => some { trueExamples := [.num 1], falseExamples := [.null] }

/-- `demoEnv` with a silent candidate generator (null contents). -/
def demoEnvNoGen : Env :=
  { demoEnv with genContent := fun _ _ _ _ _ _ _ => none }

/-- A jsonata oracle whose expressions all parse and evaluate to the input
document itself (used for the example-generation endpoint instances). -/
def idLib : JsonataLib where
  parseError := fun _ => none
  evalResult := fun _ ex => .ok (some ex)

/-- A placeholder record, used only as a `getD` fallback in the closed
instantiations. -/
def dfltIter : Iteration :=
  { jsonata := "", results := [], documentation := none,
    progress := initialProgress }

/-- The request body used in the closed instantiations. -/
def demoBody : RequestBody :=
  { jsonata := "x", trueExamples := [JValue.null], falseExamples := [],
    description := "d" }

/-- A loop state whose candidate passes every `demoBody` example. -/
def demoState : LoopState :=
  { currentJsonata := "true", progress := initialProgress, emitted := [],
    done := false }

/-- A terminal loop state. -/
def demoDoneState : LoopState :=
  { demoState with done := true }

/-- A loop state whose candidate (`"one"`, evaluating to the number `1`)
fails every example. -/
def demoFailState : LoopState :=
  { currentJsonata := "one", progress := initialProgress, emitted := [],
    done := false }

/-- A variant-loop state carrying stale patterns from a previous
iteration. -/
def demoP000State : P000State :=
  { currentJsonata := "one"
    learning := LearningSummary.mk ["stale.path"] ["$old"] "" none
    emitted := [], done := false }

/-! ### Theorems -/

/-- C1: for every expression, example and expected polarity, once evaluation
produced a value `v`, the outcome has `passed = true` iff `v` is exactly the
boolean matching the polarity; and whenever `v` is any non-boolean value
(number, string, null, object, array or `undefined`), the outcome has
`passed = false` and its error text is exactly (hence contains)
`"Expression must return exactly true or false, got: "` followed by the
`JSON.stringify` representation of the value. -/
theorem C1_strict_boolean_outcome (lib : JsonataLib) (expr : String)
    (ex : JValue) (pol : Bool) (v : JSOut)
    (hp : lib.parseError expr = none)
    (he : lib.evalResult expr ex = .ok v) :
    ((testExample lib expr ex pol).passed = true ↔ v = some (.bool pol))
    ∧ ((∀ b, v ≠ some (.bool b)) →
        (testExample lib expr ex pol).passed = false
        ∧ (testExample lib expr ex pol).error =
            some ("Expression must return exactly true or false, got: "
              ++ jsStringifyTop v)) := by
  constructor
  · simp only [testExample, hp, he]
    rcases v with _ | v
    · simp [isBoolOut]
    · cases v <;> cases pol <;> simp [isBoolOut]
  · intro hb
    have h1 : isBoolOut v true = false := by
      rcases v with _ | v
      · rfl
      · cases v <;> first | rfl | exact absurd rfl (hb _)
    have h2 : isBoolOut v false = false := by
      rcases v with _ | v
      · rfl
      · cases v <;> first | rfl | exact absurd rfl (hb _)
    simp [testExample, hp, he, h1, h2]

/-- C1 witness: with the concrete oracle, the expression `"one"` evaluates to
the number `1`, and the outcome records the type-fault error text. -/
theorem C1_strict_boolean_outcome_witness :
    (testExample demoLib "one" JValue.null true).passed = false
    ∧ (testExample demoLib "one" JValue.null true).error =
        some "Expression must return exactly true or false, got: 1" :=
  (C1_strict_boolean_outcome demoLib "one" JValue.null true (some (.num 1))
    rfl rfl).2 (by intro b h; simp at h)

/-- C5 counterexample: the claim states the parse-failure error text is
`"Invalid syntax: "` plus details and in particular contains the marker
`"Invalid syntax"`.  On the code, the text is `"Invalid JSONata syntax: "`
plus details, and the string `"Invalid syntax"` does not occur in it. -/
theorem C5_parse_error_counterexample :
    (testExample demoLib "(" JValue.null true).error =
      some "Invalid JSONata syntax: Expected expression after ("
    ∧ strHasSub "Invalid JSONata syntax: Expected expression after ("
        "Invalid syntax" = false :=
  ⟨rfl, by decide⟩

/-- C5 amended: for every expression text that fails to parse, the
evaluator's outcome for every example has `passed = false`, the `output`
field absent, and an error string equal to `"Invalid JSONata syntax: "`
followed by the parser's failure details (in particular, the error text
contains the marker `"Invalid JSONata syntax"`). -/
theorem C5_parse_error_outcomes (lib : JsonataLib) (expr : String)
    (examples : List JValue) (pol : Bool) (msg : String)
    (hp : lib.parseError expr = some msg) :
    ∀ r ∈ testJsonata lib expr examples pol,
      r.passed = false ∧ r.output = none
      ∧ r.error = some ("Invalid JSONata syntax: " ++ msg) := by
  intro r hr
  simp only [testJsonata, List.mem_map] at hr
  obtain ⟨ex, _, rfl⟩ := hr
  simp [testExample, hp]

/-- C5 witness: the malformed expression `"("` against one example. -/
theorem C5_parse_error_outcomes_witness :
    (testExample demoLib "(" JValue.null true).passed = false
    ∧ (testExample demoLib "(" JValue.null true).output = none
    ∧ (testExample demoLib "(" JValue.null true).error =
        some "Invalid JSONata syntax: Expected expression after (" :=
  C5_parse_error_outcomes demoLib "(" [JValue.null] true
    "Expected expression after (" rfl
    (testExample demoLib "(" JValue.null true) (List.mem_singleton.mpr rfl)

/-- C6: the batch evaluator returns exactly one outcome per input example in
input order — the i-th outcome exists iff the i-th example does and is the
per-example evaluation of exactly that example, so a fault on one example
never aborts or alters a sibling's outcome (per-example faults are recorded
as outcome data by `testExample`, which is total) — and the combined list of
an iteration is the positive-example outcomes followed by the
negative-example outcomes. -/
theorem C6_batch_shape (lib : JsonataLib) (expr : String)
    (examples pos neg : List JValue) (pol : Bool) :
    ((testJsonata lib expr examples pol).length = examples.length)
    ∧ (∀ i, (testJsonata lib expr examples pol).get? i =
        (examples.get? i).map (fun ex => testExample lib expr ex pol))
    ∧ (∀ i, (allResultsOf lib expr pos neg).get? i =
        if i < pos.length
        then (pos.get? i).map (fun ex => testExample lib expr ex true)
        else (neg.get? (i - pos.length)).map
          (fun ex => testExample lib expr ex false)) := by
  refine ⟨by simp [testJsonata], fun i => by simp [testJsonata], fun i => ?_⟩
  by_cases h : i < pos.length
  · simp only [h, if_pos]
    rw [allResultsOf, List.get?_append]
    · simp [testJsonata]
    · simpa [testJsonata] using h
  · simp only [h, if_neg]
    rw [allResultsOf, List.get?_append_right]
    · simp [testJsonata]
    · simp only [testJsonata, List.length_map]
      omega

/-- C10: a wrong-polarity boolean result (false for a positive example, true
for a negative one) yields `passed = false` with `output` set to that
boolean and `error` absent; conversely, every outcome with `passed = false`
and no `error` arises exactly this way — syntax, evaluation and type faults
always populate `error` and leave `output` absent. -/
theorem C10_wrong_polarity_outcomes (lib : JsonataLib) (expr : String)
    (ex : JValue) (pol b : Bool) :
    (lib.parseError expr = none → lib.evalResult expr ex = .ok (some (.bool b)) →
      b ≠ pol →
      (testExample lib expr ex pol).passed = false
      ∧ (testExample lib expr ex pol).output = some (.bool b)
      ∧ (testExample lib expr ex pol).error = none)
    ∧ ((testExample lib expr ex pol).passed = false →
        (testExample lib expr ex pol).error = none →
        ∃ b', lib.parseError expr = none
          ∧ lib.evalResult expr ex = .ok (some (.bool b'))
          ∧ b' ≠ pol
          ∧ (testExample lib expr ex pol).output = some (.bool b')) := by
  constructor
  · intro hp he hb
    cases b <;> cases pol <;> simp_all [testExample, isBoolOut]
  · intro hpassed herr
    rcases hpe : lib.parseError expr with _ | msg
    · rcases hev : lib.evalResult expr ex with msg | v
      · simp [testExample, hpe, hev] at herr
      · rcases v with _ | v
        · simp [testExample, hpe, hev, isBoolOut] at herr
        · cases v <;> simp_all [testExample, hpe, hev, isBoolOut]
          cases pol <;> rename_i b' <;> cases b' <;> simp_all
    · simp [testExample, hpe] at herr

/-- C10 witness: the expression `"true"` against a negative example
(expected polarity false): wrong-polarity boolean, no error, output kept. -/
theorem C10_wrong_polarity_outcomes_witness :
    (testExample demoLib "true" JValue.null false).passed = false
    ∧ (testExample demoLib "true" JValue.null false).output =
        some (JValue.bool true)
    ∧ (testExample demoLib "true" JValue.null false).error = none :=
  (C10_wrong_polarity_outcomes demoLib "true" JValue.null false true).1
    rfl rfl (by decide)

theorem takeWord_cons_of_word (c : Char) (cs : List Char) (h : isWordChar c) :
    takeWord (c :: cs) = c :: takeWord cs := by
  simp [takeWord, h]

theorem dropWord_cons_of_word (c : Char) (cs : List Char) (h : isWordChar c) :
    dropWord (c :: cs) = dropWord cs := by
  simp [dropWord, h]

theorem takeWord_isWord (cs : List Char) : ∀ c ∈ takeWord cs, isWordChar c := by
  induction cs with
  | nil => simp [takeWord]
  | cons c cs ih =>
    by_cases h : isWordChar c <;> simp [takeWord, h]
    exact ih

theorem takeWord_append_dropWord (cs : List Char) :
    takeWord cs ++ dropWord cs = cs := by
  induction cs with
  | nil => simp [takeWord, dropWord]
  | cons c cs ih =>
    by_cases h : isWordChar c <;> simp [takeWord, dropWord, h, ih]

theorem takeWord_eq_of_stop (w : List Char) (d : Char) (r : List Char)
    (hw : ∀ c ∈ w, isWordChar c) (hd : isWordChar d = false) :
    takeWord (w ++ d :: r) = w := by
  induction w with
  | nil => simp [takeWord, hd]
  | cons c w ih =>
    have hc : isWordChar c := hw c (by simp)
    rw [List.cons_append, takeWord_cons_of_word _ _ hc,
      ih (fun x hx => hw x (by simp [hx]))]

theorem dropWord_eq_of_stop (w : List Char) (d : Char) (r : List Char)
    (hw : ∀ c ∈ w, isWordChar c) (hd : isWordChar d = false) :
    dropWord (w ++ d :: r) = d :: r := by
  induction w with
  | nil => simp [dropWord, hd]
  | cons c w ih =>
    have hc : isWordChar c := hw c (by simp)
    rw [List.cons_append, dropWord_cons_of_word _ _ hc]
    exact ih (fun x hx => hw x (by simp [hx]))


theorem dottedGroupsF_succ (fuel : Nat) :
    ∀ cs : List Char, cs.length ≤ fuel →
      dottedGroupsF (fuel + 1) cs = dottedGroupsF fuel cs := by
  induction fuel with
  | zero =>
    intro cs h
    cases cs with
    | nil => rfl
    | cons c rest => simp at h
  | succ n ih =>
    intro cs h
    cases cs with
    | nil => rfl
    | cons c rest =>
      simp only [dottedGroupsF]
      by_cases hc : c = '.'
      · by_cases hw : takeWord rest = []
        · simp [hc, hw]
        · have hlen : (dropWord rest).length ≤ n := by
            have h1 := dropWord_length_le rest
            simp only [List.length_cons] at h
            omega
          simp only [hc, hw, if_pos, if_neg, ite_true, ite_false, ih (dropWord rest) hlen]
      · simp [hc]

theorem dottedGroupsF_ge (fuel : Nat) :
    ∀ cs : List Char, cs.length ≤ fuel →
      dottedGroupsF fuel cs = dottedGroups cs := by
  induction fuel with
  | zero =>
    intro cs h
    cases cs with
    | nil => rfl
    | cons c rest => simp at h
  | succ n ih =>
    intro cs h
    rcases Nat.lt_or_ge cs.length (n + 1) with hlt | hge
    · have hle : cs.length ≤ n := by omega
      rw [dottedGroupsF_succ n cs hle, ih cs hle]
    · have : cs.length = n + 1 := by omega
      rw [dottedGroups, this]

theorem dottedGroups_cons_dot_nil (cs : List Char) (h : takeWord cs = []) :
    dottedGroups ('.' :: cs) = ([], '.' :: cs) := by
  simp [dottedGroups, dottedGroupsF, h]

theorem dottedGroups_cons_dot (cs : List Char) (h : takeWord cs ≠ []) :
    dottedGroups ('.' :: cs) =
      ('.' :: (takeWord cs ++ (dottedGroups (dropWord cs)).1),
        (dottedGroups (dropWord cs)).2) := by
  have hstep : dottedGroups ('.' :: cs) =
      ('.' :: (takeWord cs ++ (dottedGroupsF cs.length (dropWord cs)).1),
        (dottedGroupsF cs.length (dropWord cs)).2) := by
    simp [dottedGroups, dottedGroupsF, h]
  rw [hstep, dottedGroupsF_ge cs.length (dropWord cs) (dropWord_length_le cs)]

theorem dottedGroups_cons_ndot (c : Char) (cs : List Char) (h : ¬ c = '.') :
    dottedGroups (c :: cs) = ([], c :: cs) := by
  simp [dottedGroups, dottedGroupsF, h]

theorem matchDottedAt_eq (cs : List Char) :
    matchDottedAt cs = if takeWord cs = [] then none
      else if (dottedGroups (dropWord cs)).1 = [] then none
      else some (takeWord cs ++ (dottedGroups (dropWord cs)).1) := by
  simp [matchDottedAt]

theorem dottedGroups_sound_aux (fuel : Nat) :
    ∀ cs : List Char, cs.length ≤ fuel →
    ∃ gs : List (List Char),
      (∀ g ∈ gs, g ≠ [] ∧ ∀ c ∈ g, isWordChar c) ∧
      (dottedGroups cs).1 = (gs.map (fun g => '.' :: g)).join ∧
      (dottedGroups cs).1 ++ (dottedGroups cs).2 = cs := by
  induction fuel with
  | zero =>
    intro cs h
    cases cs with
    | nil => exact ⟨[], by simp, by simp [dottedGroups, dottedGroupsF],
        by simp [dottedGroups, dottedGroupsF]⟩
    | cons c rest => simp at h
  | succ n ih =>
    intro cs h
    cases cs with
    | nil => exact ⟨[], by simp, by simp [dottedGroups, dottedGroupsF],
        by simp [dottedGroups, dottedGroupsF]⟩
    | cons c rest =>
      by_cases hc : c = '.'
      · subst hc
        by_cases hw : takeWord rest = []
        · exact ⟨[], by simp, by simp [dottedGroups_cons_dot_nil rest hw],
            by simp [dottedGroups_cons_dot_nil rest hw]⟩
        · have hlen : (dropWord rest).length ≤ n := by
            have h1 := dropWord_length_le rest
            simp only [List.length_cons] at h
            omega
          obtain ⟨gs, hgs, hjoin, happ⟩ := ih (dropWord rest) hlen
          refine ⟨takeWord rest :: gs, ?_, ?_, ?_⟩
          · intro g hg
            rcases List.mem_cons.mp hg with rfl | hg
            · exact ⟨hw, takeWord_isWord rest⟩
            · exact hgs g hg
          · rw [dottedGroups_cons_dot rest hw]
            simp [hjoin]
          · rw [dottedGroups_cons_dot rest hw]
            simp only [List.cons_append, List.append_assoc, happ,
              takeWord_append_dropWord]
      · refine ⟨[], by simp, ?_, ?_⟩ <;>
          simp [dottedGroups_cons_ndot c rest hc]

theorem dottedGroups_sound (cs : List Char) :
    ∃ gs : List (List Char),
      (∀ g ∈ gs, g ≠ [] ∧ ∀ c ∈ g, isWordChar c) ∧
      (dottedGroups cs).1 = (gs.map (fun g => '.' :: g)).join ∧
      (dottedGroups cs).1 ++ (dottedGroups cs).2 = cs :=
  dottedGroups_sound_aux cs.length cs le_rfl

theorem matchDottedAt_sound (cs m : List Char) (h : matchDottedAt cs = some m) :
    DottedShape m ∧ ∃ t, cs = m ++ t := by
  rw [matchDottedAt_eq] at h
  by_cases h1 : takeWord cs = []
  · simp [h1] at h
  · by_cases h2 : (dottedGroups (dropWord cs)).1 = []
    · simp [h1, h2] at h
    · simp only [h1, h2, if_neg, ite_false, Option.some.injEq] at h
      obtain ⟨gs, hgs, hjoin, happ⟩ := dottedGroups_sound (dropWord cs)
      have hgs0 : gs ≠ [] := by
        intro hnil
        rw [hnil] at hjoin
        simp at hjoin
        exact h2 hjoin
      constructor
      · exact ⟨takeWord cs, gs, h1, takeWord_isWord cs, hgs0, hgs,
          by rw [← h, hjoin]⟩
      · refine ⟨(dottedGroups (dropWord cs)).2, ?_⟩
        rw [← h, List.append_assoc, happ, takeWord_append_dropWord]

theorem matchDottedAt_complete (cs : List Char)
    (h : ∃ m t, DottedShape m ∧ cs = m ++ t) : matchDottedAt cs ≠ none := by
  obtain ⟨m, t, ⟨w, gs, hw0, hww, hgs0, hgsw, rfl⟩, rfl⟩ := h
  rcases gs with _ | ⟨g1, gs'⟩
  · exact absurd rfl hgs0
  obtain ⟨hg1ne, hg1w⟩ := hgsw g1 (by simp)
  rcases g1 with _ | ⟨c1, g1'⟩
  · exact absurd rfl hg1ne
  have hc1 : isWordChar c1 := hg1w c1 (by simp)
  have hdotw : isWordChar '.' = false := by decide
  have hsplit : (w ++ (((c1 :: g1') :: gs').map (fun g => '.' :: g)).join) ++ t
      = w ++ '.' :: (c1 :: (g1' ++ ((gs'.map (fun g => '.' :: g)).join ++ t))) := by
    simp
  rw [hsplit]
  have htw : takeWord (w ++ '.' :: (c1 :: (g1' ++ ((gs'.map (fun g => '.' :: g)).join ++ t)))) = w :=
    takeWord_eq_of_stop w '.' _ hww hdotw
  have hdw : dropWord (w ++ '.' :: (c1 :: (g1' ++ ((gs'.map (fun g => '.' :: g)).join ++ t))))
      = '.' :: (c1 :: (g1' ++ ((gs'.map (fun g => '.' :: g)).join ++ t))) :=
    dropWord_eq_of_stop w '.' _ hww hdotw
  have htkR : takeWord (c1 :: (g1' ++ ((gs'.map (fun g => '.' :: g)).join ++ t))) ≠ [] := by
    rw [takeWord_cons_of_word _ _ hc1]
    simp
  rw [matchDottedAt_eq, htw, hdw, if_neg hw0]
  have h1 : (dottedGroups ('.' :: (c1 :: (g1' ++ ((gs'.map (fun g => '.' :: g)).join ++ t))))).1 ≠ [] := by
    rw [dottedGroups_cons_dot _ htkR]
    simp
  rw [if_neg h1]
  simp

theorem matchDottedAt_nil : matchDottedAt [] = none := by
  rw [matchDottedAt_eq]
  simp [takeWord]

theorem findDotted_some (cs m : List Char) (h : findDotted cs = some m) :
    ∃ i, matchDottedAt (cs.drop i) = some m
      ∧ ∀ j < i, matchDottedAt (cs.drop j) = none := by
  induction cs with
  | nil => simp [findDotted] at h
  | cons c cs ih =>
    rcases hm : matchDottedAt (c :: cs) with _ | m'
    · rw [findDotted, hm] at h
      obtain ⟨i, h1, h2⟩ := ih h
      refine ⟨i + 1, by simpa using h1, fun j hj => ?_⟩
      cases j with
      | zero => simpa using hm
      | succ j => simpa using h2 j (by omega)
    · rw [findDotted, hm] at h
      cases h
      exact ⟨0, by simpa using hm, by omega⟩

theorem findDotted_none (cs : List Char) (h : findDotted cs = none) :
    ∀ i, matchDottedAt (cs.drop i) = none := by
  induction cs with
  | nil => intro i; simpa using matchDottedAt_nil
  | cons c cs ih =>
    rcases hm : matchDottedAt (c :: cs) with _ | m'
    · rw [findDotted, hm] at h
      intro i
      cases i with
      | zero => simpa using hm
      | succ i => simpa using ih h i
    · rw [findDotted, hm] at h
      cases h

theorem matchFuncAt_sound (cs m : List Char) (h : matchFuncAt cs = some m) :
    FuncShape m ∧ ∃ t, cs = m ++ t := by
  unfold matchFuncAt at h
  rcases cs with _ | ⟨c, rest⟩
  · cases h
  · by_cases hc : c = '$'
    · subst hc
      simp only [if_pos] at h
      by_cases hw : takeWord rest = []
      · simp [hw] at h
      · simp only [hw, if_neg, ite_false] at h
        rcases hdr : dropWord rest with _ | ⟨d, dr⟩
        · rw [hdr] at h; cases h
        · rw [hdr] at h
          by_cases hd : d = '('
          · subst hd
            simp only [if_pos, Option.some.injEq] at h
            subst h
            constructor
            · exact ⟨takeWord rest, hw, takeWord_isWord rest, rfl⟩
            · refine ⟨dr, ?_⟩
              have h2 : takeWord rest ++ dropWord rest = rest := takeWord_append_dropWord rest
              rw [hdr] at h2
              simp only [List.cons_append, List.append_assoc, List.singleton_append,
                List.nil_append, h2]
          · simp [hd] at h
    · simp [hc] at h

theorem matchFuncAt_complete (cs : List Char)
    (h : ∃ m t, FuncShape m ∧ cs = m ++ t) : matchFuncAt cs ≠ none := by
  obtain ⟨m, t, ⟨w, hw0, hww, rfl⟩, rfl⟩ := h
  have hparw : isWordChar '(' = false := by decide
  have hsplit : ('$' :: (w ++ ['('])) ++ t = '$' :: (w ++ '(' :: t) := by simp
  rw [hsplit]
  unfold matchFuncAt
  simp only [if_pos]
  rw [takeWord_eq_of_stop w '(' t hww hparw, dropWord_eq_of_stop w '(' t hww hparw]
  simp [hw0]

theorem matchFuncAt_nil : matchFuncAt [] = none := rfl

theorem findFunc_some (cs m : List Char) (h : findFunc cs = some m) :
    ∃ i, matchFuncAt (cs.drop i) = some m
      ∧ ∀ j < i, matchFuncAt (cs.drop j) = none := by
  induction cs with
  | nil => simp [findFunc] at h
  | cons c cs ih =>
    rcases hm : matchFuncAt (c :: cs) with _ | m'
    · rw [findFunc, hm] at h
      obtain ⟨i, h1, h2⟩ := ih h
      refine ⟨i + 1, by simpa using h1, fun j hj => ?_⟩
      cases j with
      | zero => simpa using hm
      | succ j => simpa using h2 j (by omega)
    · rw [findFunc, hm] at h
      cases h
      exact ⟨0, by simpa using hm, by omega⟩

theorem findFunc_none (cs : List Char) (h : findFunc cs = none) :
    ∀ i, matchFuncAt (cs.drop i) = none := by
  induction cs with
  | nil => intro i; simpa using matchFuncAt_nil
  | cons c cs ih =>
    rcases hm : matchFuncAt (c :: cs) with _ | m'
    · rw [findFunc, hm] at h
      intro i
      cases i with
      | zero => simpa using hm
      | succ i => simpa using ih h i
    · rw [findFunc, hm] at h
      cases h

/-- C8: the pattern extractor depends only on the expression's static text
(hence calling it twice on the same pair — or with any other example —
yields the same result); when it returns a pattern, that pattern is either
the first (leftmost) substring of the expression matching the dotted-path
form `identifier(.identifier)+`, returned verbatim, or — when no position
of the expression carries a dotted-path match — the first substring
matching the function-invocation form `$identifier(` with the trailing
`(` stripped; and it returns nothing exactly when neither form occurs. -/
theorem C8_extract_pattern (expr : String) (ex1 ex2 : JValue) :
    extractPatternFromJsonata expr ex1 = extractPatternFromJsonata expr ex2
    ∧ (∀ s, extractPatternFromJsonata expr ex1 = some s →
        FirstDottedSub expr.toList s.toList
        ∨ ((∀ i, ¬ DottedAt expr.toList i)
            ∧ FirstFuncSubStripped expr.toList s.toList))
    ∧ (extractPatternFromJsonata expr ex1 = none →
        (∀ i, ¬ DottedAt expr.toList i) ∧ (∀ i, ¬ FuncAt expr.toList i)) := by
  refine ⟨rfl, ?_, ?_⟩
  · intro s hs
    unfold extractPatternFromJsonata at hs
    rcases hd : findDotted expr.toList with _ | m
    · rw [hd] at hs
      rcases hf : findFunc expr.toList with _ | m
      · rw [hf] at hs
        cases hs
      · rw [hf] at hs
        cases hs
        right
        constructor
        · rintro i ⟨mm, t, hshape, hdrop⟩
          exact matchDottedAt_complete _ ⟨mm, t, hshape, hdrop⟩
            (findDotted_none _ hd i)
        · obtain ⟨i, h1, h2⟩ := findFunc_some _ _ hf
          obtain ⟨hshape, tt, heq⟩ := matchFuncAt_sound _ _ h1
          refine ⟨i, m, hshape, ⟨tt, heq⟩, rfl, ?_⟩
          rintro j hj ⟨mm, t2, hsh, hdp⟩
          exact matchFuncAt_complete _ ⟨mm, t2, hsh, hdp⟩ (h2 j hj)
    · rw [hd] at hs
      cases hs
      left
      obtain ⟨i, h1, h2⟩ := findDotted_some _ _ hd
      obtain ⟨hshape, tt, heq⟩ := matchDottedAt_sound _ _ h1
      refine ⟨i, hshape, ⟨tt, heq⟩, ?_⟩
      rintro j hj ⟨mm, t2, hsh, hdp⟩
      exact matchDottedAt_complete _ ⟨mm, t2, hsh, hdp⟩ (h2 j hj)
  · intro h
    unfold extractPatternFromJsonata at h
    rcases hd : findDotted expr.toList with _ | m
    · rcases hf : findFunc expr.toList with _ | m
      · constructor
        · rintro i ⟨mm, t, hsh, hdp⟩
          exact matchDottedAt_complete _ ⟨mm, t, hsh, hdp⟩
            (findDotted_none _ hd i)
        · rintro i ⟨mm, t, hsh, hdp⟩
          exact matchFuncAt_complete _ ⟨mm, t, hsh, hdp⟩
            (findFunc_none _ hf i)
      · rw [hd, hf] at h
        cases h
    · rw [hd] at h
      cases h

/-- C8 witness: on the expression `"x.y + $sum(z)"` the extractor answers
`"x.y"` for any example, and that answer is the first dotted-path
substring. -/
theorem C8_extract_pattern_witness :
    extractPatternFromJsonata "x.y + $sum(z)" JValue.null
      = extractPatternFromJsonata "x.y + $sum(z)" (JValue.bool true)
    ∧ (FirstDottedSub "x.y + $sum(z)".toList "x.y".toList
        ∨ ((∀ i, ¬ DottedAt "x.y + $sum(z)".toList i)
            ∧ FirstFuncSubStripped "x.y + $sum(z)".toList "x.y".toList)) :=
  ⟨(C8_extract_pattern "x.y + $sum(z)" JValue.null (JValue.bool true)).1,
   (C8_extract_pattern "x.y + $sum(z)" JValue.null (JValue.bool true)).2.1
     "x.y" rfl⟩

theorem runIteration_doc (env : Env) (te fe : List JValue) (d : String)
    (st : LoopState) :
    (runIteration env te fe d st).progress.documentation
      = st.progress.documentation := by
  unfold runIteration
  dsimp only
  split <;> split <;> split <;> rfl

theorem runIteration_emitted (env : Env) (te fe : List JValue) (d : String)
    (st : LoopState) :
    ∃ iter : Iteration,
      (runIteration env te fe d st).emitted = st.emitted ++ [iter]
      ∧ iter.documentation = st.progress.documentation
      ∧ iter.jsonata = st.currentJsonata
      ∧ iter.results = allResultsOf env.lib st.currentJsonata te fe := by
  unfold runIteration
  dsimp only
  split <;> split <;> split <;>
    exact ⟨_, rfl, rfl, rfl, rfl⟩

theorem runLoop_doc_invariant (env : Env) (te fe : List JValue) (d : String) :
    ∀ (fuel : Nat) (st : LoopState) (D : Option (List String)),
      st.progress.documentation = D →
      (∀ it ∈ st.emitted, it.documentation = D) →
      (runLoop env te fe d fuel st).progress.documentation = D
      ∧ ∀ it ∈ (runLoop env te fe d fuel st).emitted, it.documentation = D := by
  intro fuel
  induction fuel with
  | zero =>
    intro st D h1 h2
    exact ⟨h1, h2⟩
  | succ n ih =>
    intro st D h1 h2
    rw [runLoop]
    by_cases hd : st.done
    · simp only [hd, if_pos, ite_true]
      exact ⟨h1, h2⟩
    · simp only [hd, if_neg, ite_false]
      apply ih
      · rw [runIteration_doc]
        exact h1
      · obtain ⟨iter, he, hdoc, _, _⟩ := runIteration_emitted env te fe d st
        rw [he]
        intro it hit
        rcases List.mem_append.mp hit with h | h
        · exact h2 it h
        · rw [List.mem_singleton.mp h, hdoc]
          exact h1

/-- C3: within one run, the documentation selection is computed on the
first candidate-generation call (the only call that sees an absent
`progress.documentation`) and frozen thereafter: a pinned selection is
returned unchanged by the selector — and without consulting the
selection LLM at all — and every emitted iteration record of the run
carries exactly the selection returned by the first generator call. -/
theorem C3_documentation_frozen (env : Env) (body : RequestBody) (fuel : Nat) :
    (∀ d c te fe docs ds',
      (loadRelevantDocumentation env d c te fe (some docs)).1 = docs
      ∧ loadRelevantDocumentation { env with docSelectContent := ds' }
          d c te fe (some docs)
        = loadRelevantDocumentation env d c te fe (some docs))
    ∧ (runPost env body fuel).progress.documentation
        = some (generateNextJsonata env body.jsonata body.trueExamples
            body.falseExamples body.description [] (some initialProgress)).2
    ∧ (∀ iter ∈ (runPost env body fuel).emitted,
        iter.documentation
          = some (generateNextJsonata env body.jsonata body.trueExamples
              body.falseExamples body.description [] (some initialProgress)).2) := by
  refine ⟨fun d c te fe docs ds' => ⟨rfl, rfl⟩, ?_, ?_⟩
  · exact (runLoop_doc_invariant env body.trueExamples body.falseExamples
      body.description fuel _ _ rfl (by simp)).1
  · exact (runLoop_doc_invariant env body.trueExamples body.falseExamples
      body.description fuel _ _ rfl (by simp)).2

/-- C3 witness: a two-fuel run on the concrete environment; its emitted
record carries the documentation of the first generator call. -/
theorem C3_documentation_frozen_witness :
    ((runPost demoEnv demoBody 2).emitted.getD 0 dfltIter).documentation
      = some (generateNextJsonata demoEnv demoBody.jsonata demoBody.trueExamples
          demoBody.falseExamples demoBody.description []
          (some initialProgress)).2 :=
  (C3_documentation_frozen demoEnv demoBody 2).2.2
    ((runPost demoEnv demoBody 2).emitted.getD 0 dfltIter)
    (List.Mem.head _)

theorem runLoop_done (env : Env) (te fe : List JValue) (d : String)
    (fuel : Nat) (st : LoopState) (h : st.done = true) :
    runLoop env te fe d fuel st = st := by
  cases fuel with
  | zero => rfl
  | succ n => simp [runLoop, h]

/-- C4: whenever every outcome of an iteration has `passed = true` —
including vacuously when both example sets are empty, in which case this
happens on the first iteration — the loop emits that iteration's record,
transitions to the terminal done state (in which the loop never changes
state again: the closed stream), keeps the current expression, and never
consults the candidate-generation LLM again. -/
theorem C4_all_passed_done (env : Env) (te fe : List JValue) (d j dd : String)
    (st : LoopState) (fuel : Nat) :
    ((allResultsOf env.lib st.currentJsonata te fe).all (fun r => r.passed) = true →
      (runIteration env te fe d st).done = true
      ∧ (runIteration env te fe d st).currentJsonata = st.currentJsonata
      ∧ (∃ iter, (runIteration env te fe d st).emitted = st.emitted ++ [iter]
          ∧ iter.jsonata = st.currentJsonata
          ∧ iter.results = allResultsOf env.lib st.currentJsonata te fe)
      ∧ ∀ g, runIteration { env with genContent := g } te fe d st
          = runIteration env te fe d st)
    ∧ (st.done = true → runLoop env te fe d fuel st = st)
    ∧ ((runPost env (RequestBody.mk j [] [] dd) (fuel + 1)).done = true
        ∧ (runPost env (RequestBody.mk j [] [] dd) (fuel + 1)).emitted.length
            = 1) := by
  refine ⟨?_, fun h => runLoop_done env te fe d fuel st h, ?_⟩
  · intro h
    refine ⟨?_, ?_, ?_, ?_⟩
    · unfold runIteration
      dsimp only
      rw [h]
      rfl
    · unfold runIteration
      dsimp only
      rw [h]
      rfl
    · unfold runIteration
      dsimp only
      rw [h]
      exact ⟨_, rfl, rfl, rfl⟩
    · intro g
      unfold runIteration
      dsimp only
      rw [h]
      rfl
  · have hdone : (runIteration env ([] : List JValue) ([] : List JValue) dd
        (LoopState.mk (generateNextJsonata env j [] [] dd [] (some initialProgress)).1
          { initialProgress with documentation := some (generateNextJsonata env j [] [] dd [] (some initialProgress)).2 }
          [] false)).done = true := rfl
    have e1 : runPost env (RequestBody.mk j [] [] dd) (fuel + 1)
        = runLoop env [] [] dd fuel (runIteration env [] [] dd
            (LoopState.mk (generateNextJsonata env j [] [] dd [] (some initialProgress)).1
              { initialProgress with documentation := some (generateNextJsonata env j [] [] dd [] (some initialProgress)).2 }
              [] false)) := rfl
    rw [e1, runLoop_done env [] [] dd fuel _ hdone]
    exact ⟨hdone, rfl⟩

/-- C4 witness: with the concrete environment, a passing candidate makes
the iteration terminal, keeping its expression; a done state is a fixed
point of the loop. -/
theorem C4_all_passed_done_witness :
    (runIteration demoEnv [JValue.null] [] "d" demoState).done = true
    ∧ (runIteration demoEnv [JValue.null] [] "d" demoState).currentJsonata
        = demoState.currentJsonata
    ∧ runLoop demoEnv [JValue.null] [] "d" 3 demoDoneState = demoDoneState :=
  ⟨((C4_all_passed_done demoEnv [JValue.null] [] "d" "x" "d" demoState 3).1
      (by decide)).1,
   ((C4_all_passed_done demoEnv [JValue.null] [] "d" "x" "d" demoState 3).1
      (by decide)).2.1,
   (C4_all_passed_done demoEnv [JValue.null] [] "d" "x" "d" demoDoneState 3).2.1
      rfl⟩

/-- C9: the candidate generator takes the LLM's raw text response, trimmed
of surrounding whitespace, as the next candidate verbatim — a null/empty
response degrades to the empty string — and performs no syntax validation
(the result does not depend on the jsonata library at all); in the loop, a
failing iteration (of a non-terminal state) continues to the next
evaluation round rather than aborting, and if the LLM's candidate
responses are null the next candidate is the empty string. -/
theorem C9_candidate_verbatim (env : Env) (cur : String) (te fe : List JValue)
    (d : String) (prev : List TestResult) (pr : Option Progress)
    (st : LoopState) (fuel : Nat) :
    ((env.genContent cur te fe d prev pr
        (loadRelevantDocumentation env d cur te fe
          (pr.bind (fun p => p.documentation))).2 = none →
      (generateNextJsonata env cur te fe d prev pr).1 = "")
    ∧ (∀ s, env.genContent cur te fe d prev pr
        (loadRelevantDocumentation env d cur te fe
          (pr.bind (fun p => p.documentation))).2 = some s →
      (generateNextJsonata env cur te fe d prev pr).1 = jsTrim s)
    ∧ (∀ lib', generateNextJsonata { env with lib := lib' } cur te fe d prev pr
        = generateNextJsonata env cur te fe d prev pr))
    ∧ (st.done = false →
      (allResultsOf env.lib st.currentJsonata te fe).all (fun r => r.passed) = false →
      (runIteration env te fe d st).done = false
      ∧ runLoop env te fe d (fuel + 1) st
          = runLoop env te fe d fuel (runIteration env te fe d st)
      ∧ ((∀ a b c e f g rd, env.genContent a b c e f g rd = none) →
          (runIteration env te fe d st).currentJsonata = "")) := by
  constructor
  · refine ⟨?_, ?_, fun lib' => rfl⟩
    · intro hg
      unfold generateNextJsonata
      dsimp only
      rw [hg]
      rfl
    · intro s hg
      unfold generateNextJsonata
      dsimp only
      rw [hg]
      rfl
  · intro hst h
    refine ⟨?_, ?_, ?_⟩
    · unfold runIteration
      dsimp only
      rw [h]
      rfl
    · rw [runLoop, hst]
      rfl
    · intro hgnone
      unfold runIteration
      dsimp only
      rw [h]
      unfold generateNextJsonata
      dsimp only
      rw [hgnone]
      rfl

/-- C9 witness: the silent-generator environment yields the empty candidate
and the loop goes on after a failing iteration. -/
theorem C9_candidate_verbatim_witness :
    (generateNextJsonata demoEnvNoGen "x" [JValue.null] [] "d" []
      (some initialProgress)).1 = ""
    ∧ (runIteration demoEnvNoGen [JValue.null] [] "d" demoFailState).done = false
    ∧ (runIteration demoEnvNoGen [JValue.null] [] "d"
        demoFailState).currentJsonata = ""
    ∧ (generateNextJsonata demoEnv "x" [JValue.null] [] "d" []
        (some initialProgress)).1 = jsTrim " true " :=
  ⟨(C9_candidate_verbatim demoEnvNoGen "x" [JValue.null] [] "d" []
      (some initialProgress) demoFailState 1).1.1 rfl,
   ((C9_candidate_verbatim demoEnvNoGen "x" [JValue.null] [] "d" []
      (some initialProgress) demoFailState 1).2 rfl (by decide)).1,
   ((C9_candidate_verbatim demoEnvNoGen "x" [JValue.null] [] "d" []
      (some initialProgress) demoFailState 1).2 rfl (by decide)).2.2
     (fun _ _ _ _ _ _ _ => rfl),
   (C9_candidate_verbatim demoEnv "x" [JValue.null] [] "d" []
      (some initialProgress) demoFailState 1).1.2.1 " true " rfl⟩

theorem insertNew_mem (l : List String) (s p : String) :
    p ∈ insertNew l s ↔ p ∈ l ∨ p = s := by
  unfold insertNew
  by_cases h : s ∈ l
  · simp only [h, if_pos, ite_true]
    constructor
    · exact Or.inl
    · rintro (hp | rfl)
      · exact hp
      · exact h
  · simp [h]

theorem patternStep_fold_mem (expr : String) (results : List TestResult) :
    ∀ (acc : List String × List String) (p : String),
      (p ∈ (results.foldl (patternStep expr) acc).1 ↔
        p ∈ acc.1 ∨ ∃ r ∈ results, r.passed = true
          ∧ extractPatternFromJsonata expr r.exampleVal = some p)
      ∧ (p ∈ (results.foldl (patternStep expr) acc).2 ↔
        p ∈ acc.2 ∨ ∃ r ∈ results, r.passed = false
          ∧ extractPatternFromJsonata expr r.exampleVal = some p) := by
  induction results with
  | nil =>
    intro acc p
    simp
  | cons r rs ih =>
    intro acc p
    simp only [List.foldl_cons]
    obtain ⟨ih1, ih2⟩ := ih (patternStep expr acc r) p
    rw [ih1, ih2]
    rcases hx : extractPatternFromJsonata expr r.exampleVal with _ | q
    · rw [show patternStep expr acc r = acc from by simp [patternStep, hx]]
      simp only [List.mem_cons]
      constructor <;> constructor
      · rintro (h | ⟨r', hr', h1, h2⟩)
        · exact Or.inl h
        · exact Or.inr ⟨r', Or.inr hr', h1, h2⟩
      · rintro (h | ⟨r', hr' | hr', h1, h2⟩)
        · exact Or.inl h
        · rw [hr'] at h2
          rw [hx] at h2
          cases h2
        · exact Or.inr ⟨r', hr', h1, h2⟩
      · rintro (h | ⟨r', hr', h1, h2⟩)
        · exact Or.inl h
        · exact Or.inr ⟨r', Or.inr hr', h1, h2⟩
      · rintro (h | ⟨r', hr' | hr', h1, h2⟩)
        · exact Or.inl h
        · rw [hr'] at h2
          rw [hx] at h2
          cases h2
        · exact Or.inr ⟨r', hr', h1, h2⟩
    · by_cases hp : r.passed
      · rw [show patternStep expr acc r = (insertNew acc.1 q, acc.2) from
          by simp [patternStep, hx, hp]]
        simp only [List.mem_cons, insertNew_mem]
        constructor <;> constructor
        · rintro ((h | rfl) | ⟨r', hr', h1, h2⟩)
          · exact Or.inl h
          · exact Or.inr ⟨r, Or.inl rfl, hp, hx⟩
          · exact Or.inr ⟨r', Or.inr hr', h1, h2⟩
        · rintro (h | ⟨r', hr' | hr', h1, h2⟩)
          · exact Or.inl (Or.inl h)
          · rw [hr'] at h2
            rw [hx] at h2
            cases h2
            exact Or.inl (Or.inr rfl)
          · exact Or.inr ⟨r', hr', h1, h2⟩
        · rintro (h | ⟨r', hr', h1, h2⟩)
          · exact Or.inl h
          · exact Or.inr ⟨r', Or.inr hr', h1, h2⟩
        · rintro (h | ⟨r', hr' | hr', h1, h2⟩)
          · exact Or.inl h
          · rw [hr', hp] at h1
            cases h1
          · exact Or.inr ⟨r', hr', h1, h2⟩
      · rw [show patternStep expr acc r = (acc.1, insertNew acc.2 q) from
          by simp [patternStep, hx, hp]]
        have hp2 : r.passed = false := by
          cases hb : r.passed
          · rfl
          · exact absurd hb hp
        simp only [List.mem_cons, insertNew_mem]
        constructor <;> constructor
        · rintro (h | ⟨r', hr', h1, h2⟩)
          · exact Or.inl h
          · exact Or.inr ⟨r', Or.inr hr', h1, h2⟩
        · rintro (h | ⟨r', hr' | hr', h1, h2⟩)
          · exact Or.inl h
          · rw [hr', hp2] at h1
            cases h1
          · exact Or.inr ⟨r', hr', h1, h2⟩
        · rintro ((h | rfl) | ⟨r', hr', h1, h2⟩)
          · exact Or.inl h
          · exact Or.inr ⟨r, Or.inl rfl, hp2, hx⟩
          · exact Or.inr ⟨r', Or.inr hr', h1, h2⟩
        · rintro (h | ⟨r', hr' | hr', h1, h2⟩)
          · exact Or.inl (Or.inl h)
          · rw [hr'] at h2
            rw [hx] at h2
            cases h2
            exact Or.inl (Or.inr rfl)
          · exact Or.inr ⟨r', hr', h1, h2⟩

/-- C2: at the end of every iteration of the `LearningSummary` loop, both
`workingPatterns` and `failedPatterns` are recomputed from scratch — the
new lists are the partition of the patterns extracted from this
iteration's outcomes by their `passed` flag, with no dependence on the
learning state carried in from earlier iterations — so they reflect only
the latest iteration's outcomes. -/
theorem C2_patterns_recomputed (env : Env) (te fe : List JValue) (d : String)
    (st : P000State) :
    ((p000_runIteration env te fe d st).learning.workingPatterns
        = (patternPartition st.currentJsonata
            (allResultsOf env.lib st.currentJsonata te fe)).1
      ∧ (p000_runIteration env te fe d st).learning.failedPatterns
        = (patternPartition st.currentJsonata
            (allResultsOf env.lib st.currentJsonata te fe)).2)
    ∧ (∀ expr results p,
        (p ∈ (patternPartition expr results).1 ↔
          ∃ r ∈ results, r.passed = true
            ∧ extractPatternFromJsonata expr r.exampleVal = some p)
        ∧ (p ∈ (patternPartition expr results).2 ↔
          ∃ r ∈ results, r.passed = false
            ∧ extractPatternFromJsonata expr r.exampleVal = some p)) := by
  constructor
  · unfold p000_runIteration
    dsimp only
    split <;> split <;> exact ⟨rfl, rfl⟩
  · intro expr results p
    obtain ⟨h1, h2⟩ := patternStep_fold_mem expr results ([], []) p
    unfold patternPartition
    rw [h1, h2]
    simp

/-- C2 witness: the stale patterns of the carried-in learning state are
gone after one iteration, and a failing outcome's pattern lands in the
failed partition. -/
theorem C2_patterns_recomputed_witness :
    (p000_runIteration demoEnv [JValue.null] [] "d"
        demoP000State).learning.workingPatterns
      = (patternPartition "one" (allResultsOf demoLib "one" [JValue.null] [])).1
    ∧ "a.b" ∈ (patternPartition "a.b"
        (allResultsOf demoLib "a.b" [JValue.null] [])).2 :=
  ⟨(C2_patterns_recomputed demoEnv [JValue.null] [] "d" demoP000State).1.1,
   ((C2_patterns_recomputed demoEnv [JValue.null] [] "d" demoP000State).2
      "a.b" (allResultsOf demoLib "a.b" [JValue.null] []) "a.b").2.mpr
     ⟨testExample demoLib "a.b" JValue.null true, List.Mem.head _, rfl, rfl⟩⟩

theorem genPostLoop_true_validated (lib : JsonataLib)
    (gen : Nat → Option GenResponse) (expr : String) (out : JSOut) :
    ∀ (remaining attempts : Nat) (te fe : List JValue) (tout fout : List JSOut),
      genPostLoop lib gen expr out attempts remaining = .ok te fe tout fout →
      ∀ ex ∈ te, (validateTestExample lib ex expr out).1 = true := by
  intro remaining
  induction remaining with
  | zero =>
    intro attempts te fe tout fout h
    simp [genPostLoop] at h
  | succ n ih =>
    intro attempts te fe tout fout h
    rw [genPostLoop] at h
    rcases hg : gen attempts with _ | resp
    · rw [hg] at h
      cases h
    · rw [hg] at h
      dsimp only at h
      by_cases hv : (resp.trueExamples.map
          (fun ex => validateTestExample lib ex expr out)).all (fun v => v.1)
      · rw [if_pos hv] at h
        cases h
        intro ex hex
        have := List.all_eq_true.mp hv
          (validateTestExample lib ex expr out)
          (List.mem_map.mpr ⟨ex, hex, rfl⟩)
        exact this
      · rw [if_neg hv] at h
        exact ih (attempts + 1) te fe tout fout h

theorem genPostLoop_err (lib : JsonataLib) (gen : Nat → Option GenResponse)
    (expr : String) (out : JSOut) :
    ∀ (remaining attempts : Nat),
      (∀ k, attempts ≤ k → k < attempts + remaining →
        ∀ resp, gen k = some resp →
          (resp.trueExamples.map (fun ex => validateTestExample lib ex expr out)).all
            (fun v => v.1) = false) →
      ∃ msg, genPostLoop lib gen expr out attempts remaining = .err msg := by
  intro remaining
  induction remaining with
  | zero =>
    intro attempts _
    exact ⟨_, rfl⟩
  | succ n ih =>
    intro attempts hall
    rw [genPostLoop]
    rcases hg : gen attempts with _ | resp
    · exact ⟨_, rfl⟩
    · dsimp only
      have hv := hall attempts le_rfl (by omega) resp hg
      rw [if_neg (by rw [hv]; exact Bool.false_ne_true)]
      exact ih (attempts + 1) (fun k hk1 hk2 resp' hg' =>
        hall k (by omega) (by omega) resp' hg')

/-- C7 counterexample: the claim states both returned example arrays are
validated.  On the code, a false example whose evaluation is `null` is
returned anyway: with an oracle evaluating every expression to the input
document itself, the response containing the false example `null` — which
fails validation — is returned as a success. -/
theorem C7_example_generation_counterexample :
    genPost idLib (fun _ => some (GenResponse.mk [JValue.num 1] [JValue.null]))
        "E" (some (JValue.num 7))
      = .ok [JValue.num 1] [JValue.null] [some (JValue.num 1)] [some JValue.null]
    ∧ (validateTestExample idLib JValue.null "E" (some (JValue.num 7))).1 = false :=
  ⟨rfl, rfl⟩

/-- C7 amended: the example-generation endpoint validates only the
`trueExamples` of the LLM's response: every `trueExample` of a returned
payload produces a non-empty, non-null result when the expression is
applied to it (undefined, null, empty-object and empty-array results are
rejected), and when no attempt (out of 3) yields fully validated
`trueExamples` the endpoint fails with an error instead of returning them;
the `falseExamples` are run through the same validator only to collect
their outputs — their validation failures do not block the response. -/
theorem C7_true_examples_validated (lib : JsonataLib)
    (gen : Nat → Option GenResponse) (expr : String) (out : JSOut) :
    (∀ te fe tout fout, genPost lib gen expr out = .ok te fe tout fout →
      ∀ ex ∈ te, (validateTestExample lib ex expr out).1 = true)
    ∧ ((∀ k, k < 3 → ∀ resp, gen k = some resp →
        (resp.trueExamples.map (fun ex => validateTestExample lib ex expr out)).all
          (fun v => v.1) = false) →
      ∃ msg, genPost lib gen expr out = .err msg) :=
  ⟨fun te fe tout fout h =>
    genPostLoop_true_validated lib gen expr out 3 0 te fe tout fout h,
   fun hall =>
    genPostLoop_err lib gen expr out 3 0
      (fun k hk1 hk2 resp hg => hall k (by omega) resp hg)⟩

/-- C7 witness: a validated true example passes through; an
always-invalid true-example set ends in an error after the attempts. -/
theorem C7_true_examples_validated_witness :
    (validateTestExample idLib (JValue.num 1) "E" (some (JValue.num 7))).1 = true
    ∧ ∃ msg, genPost idLib (fun _ => some (GenResponse.mk [JValue.null] []))
        "E" none = .err msg :=
  ⟨(C7_true_examples_validated idLib
      (fun _ => some (GenResponse.mk [JValue.num 1] [JValue.null])) "E"
      (some (JValue.num 7))).1
      [JValue.num 1] [JValue.null] [some (JValue.num 1)] [some JValue.null] rfl
      (JValue.num 1) (List.Mem.head _),
   (C7_true_examples_validated idLib
      (fun _ => some (GenResponse.mk [JValue.null] [])) "E" none).2
      (fun k hk resp hresp => by cases hresp; rfl)⟩
